import Mathlib

/-!
# envui: filtering and the terminal state machine of `main.go`

A shallow embedding of `src/main.go` (package `main` of rtzll/envui).

* A Go `string` is a sequence of bytes; it is embedded as `GoString = List Nat`
  (one number per byte).
* `strings.ToLower` and `strings.Contains` are written out from the Go standard
  library; only the Unicode case mapping of strings that are not ASCII is a
  parameter (`unicodeLower`), and every theorem holds for every such mapping.
* `appState` keeps the data fields of the Go struct.  Of the widgets only the
  data the program stores in them is kept: the text of the search field
  (`a.input`) and the text of the status line (`a.status`).  The list widget,
  the layout and the focus are rendering state and are left out.
* The outside world is explicit: every key event carries the clock readings
  and the outcome of the clipboard write (`Env`), and the strings handed to
  `clipboard.WriteAll` are logged in the field `clipboard`.
* A Go run-time panic (slice index out of range) is the result `none`.
* A Go `int` is embedded as `Int`: the cursor and the lengths it is compared with
  stay within the length of a slice, so no arithmetic wraps around.
-/

namespace Envui

/-! ## Strings (Go standard library) -/

/-- A Go string: its bytes, in order. -/
abbrev GoString := List Nat

/-- The bytes of an ASCII literal. -/
def str (s : String) : GoString := s.data.map Char.toNat

/-- The constant `utf8.RuneSelf`: bytes below it are ASCII. -/
def RuneSelf : Nat := 0x80

/-- The test `'A' <= c && c <= 'Z'` of `strings.ToLower`. -/
def isUpperByte (c : Nat) : Bool := decide (65 ≤ c) && decide (c ≤ 90)

/-- The byte update `c += 'a' - 'A'` that `strings.ToLower` applies to an upper-case ASCII byte. -/
def lowerByte (c : Nat) : Nat := if isUpperByte c then c + (97 - 65) else c

/-- Go `strings.ToLower`.  A string of ASCII bytes is returned as it is when it has no
upper-case letter and is lowered byte by byte otherwise.  A string with a byte that is
not ASCII goes to `strings.Map(unicode.ToLower, s)`; the Unicode case tables are not
part of the repository, so that function is the parameter `unicodeLower`. -/
def ToLower (unicodeLower : GoString → GoString) (s : GoString) : GoString :=
  if s.all (fun c => decide (c < RuneSelf)) then
    if !(s.any isUpperByte) then s else s.map lowerByte
  else unicodeLower s

/-- Scan of `strings.Index`: the first position, counted from `i`, at which `substr`
starts in `s`, or `-1`. -/
def indexFrom (substr : GoString) : GoString → Int → Int
  | [], i => if substr.isEmpty then i else -1
  | c :: rest, i => if substr.isPrefixOf (c :: rest) then i else indexFrom substr rest (i + 1)

/-- Go `strings.Index`: index of the first instance of `substr` in `s`, or `-1`. -/
def Index (s substr : GoString) : Int := indexFrom substr s 0

/-- Go `strings.Contains`: `Index(s, substr) >= 0`. -/
def Contains (s substr : GoString) : Bool := decide (Index s substr ≥ 0)

/-! ## `filterEntries` (main.go, lines 29-41) -/

/-- The function `filterEntries`: the empty query returns `entries` itself; otherwise the
loop appends to `out` every entry whose lower-cased text contains the lower-cased query. -/
def filterEntries (unicodeLower : GoString → GoString) (entries : List GoString)
    (query : GoString) : List GoString :=
  if query = [] then entries
  else
    let q := ToLower unicodeLower query
    entries.foldl
      (fun out e => if Contains (ToLower unicodeLower e) q then out ++ [e] else out) []

/-! ## Keys, time and the outside world -/

/-- The values of `tcell.Key` that main.go compares with; every other key is `other`. -/
inductive Key where
  | rune
  | up
  | down
  | ctrlC
  | enter
  | esc
  | other
deriving DecidableEq, Repr

/-- A Go `rune`: a code point. -/
abbrev Rune := Nat

/-- A `time.Time`, as the number of nanoseconds since the zero time; `0` is the zero
value, for which `IsZero()` holds. -/
abbrev Time := Int

/-- The constant `time.Second`, in nanoseconds. -/
def Second : Int := 1000000000

/-- What one key event reads from the outside world. -/
structure Env where
  /-- Result of `time.Now()` in the expiry check (line 124). -/
  now : Time
  /-- Whether `clipboard.WriteAll` returns a nil error (line 149). -/
  writeOk : Bool
  /-- Result of `time.Now()` inside `setStatus` (line 94). -/
  statusNow : Time
deriving DecidableEq, Repr

/-! ## The state -/

/-- The struct `appState` (lines 16-27).  `inputText` is the text of the widget `input`,
`statusText` the text of the widget `status`, `stopped` records `a.app.Stop()` and
`clipboard` lists, oldest first, the strings passed to `clipboard.WriteAll`. -/
structure appState where
  entries : List GoString
  filtered : List GoString
  cursor : Int
  fileMode : Bool
  searchMode : Bool
  statusClearTime : Time
  inputText : GoString
  statusText : GoString
  stopped : Bool
  clipboard : List GoString
deriving DecidableEq, Repr

/-- Go slice indexing `xs[i]`: `none` is the index-out-of-range panic. -/
def sliceIndex (xs : List GoString) (i : Int) : Option GoString :=
  if 0 ≤ i then xs.get? i.toNat else none

/-- The method `refreshList` (lines 78-90): the two clamping tests on the cursor. -/
def refreshList (a : appState) : appState :=
  let a1 := if a.cursor ≥ (a.filtered.length : Int) then
      { a with cursor := (a.filtered.length : Int) - 1 } else a
  if a1.cursor < 0 then { a1 with cursor := 0 } else a1

/-- The call `fmt.Sprintf("[yellow]%s", msg)` of `setStatus`. -/
def sprintfYellow (msg : GoString) : GoString := str "[yellow]" ++ msg

/-- The method `setStatus` (lines 92-95); `now` is the result of `time.Now()`. -/
def setStatus (now : Time) (msg : GoString) (a : appState) : appState :=
  { a with statusText := sprintfYellow msg, statusClearTime := now + 2 * Second }

/-- The method `exitSearch` (lines 97-100). -/
def exitSearch (a : appState) : appState :=
  { a with searchMode := false }

/-- The handler given to `SetChangedFunc` (lines 58-61). -/
def changedFunc (unicodeLower : GoString → GoString) (text : GoString) (a : appState) :
    appState :=
  refreshList { a with filtered := filterEntries unicodeLower a.entries text }

/-- The call `a.input.SetText(text)`: tview stores the text and then calls the changed
handler with it. -/
def inputSetText (unicodeLower : GoString → GoString) (text : GoString) (a : appState) :
    appState :=
  changedFunc unicodeLower text { a with inputText := text }

/-- The handler given to `SetDoneFunc` (lines 62-71). -/
def doneFunc (unicodeLower : GoString → GoString) (key : Key) (a : appState) : appState :=
  match key with
  | Key.enter => exitSearch a
  | Key.esc =>
    let a1 := inputSetText unicodeLower [] a
    exitSearch { a1 with filtered := a1.entries }
  | _ => a

/-- The function `newApp` (lines 43-76). -/
def newApp (entries : List GoString) (fileMode : Bool) : appState :=
  refreshList
    { entries := entries
      filtered := entries
      cursor := 0
      fileMode := fileMode
      searchMode := false
      statusClearTime := 0
      inputText := []
      statusText := []
      stopped := false
      clipboard := [] }

/-- The expiry check that opens the input capture (lines 123-126). -/
def expireStatus (now : Time) (a : appState) : appState :=
  if a.statusClearTime ≠ 0 ∧ now > a.statusClearTime then { a with statusText := [] } else a

/-- The body of `case r == 'y'` (lines 147-154). -/
def copySelection (env : Env) (a : appState) : Option appState :=
  if a.filtered.length > 0 then
    match sliceIndex a.filtered a.cursor with
    | none => none
    | some entry =>
      let a1 := { a with clipboard := a.clipboard ++ [entry] }
      if env.writeOk then some (setStatus env.statusNow (str "Copied to clipboard") a1)
      else some (setStatus env.statusNow (str "Error copying to clipboard") a1)
  else some a

/-- The `switch` of the input capture (lines 137-155). -/
def commands (unicodeLower : GoString → GoString) (env : Env) (k : Key) (r : Rune)
    (a : appState) : Option appState :=
  if r = Char.toNat 'q' ∨ k = Key.ctrlC then some { a with stopped := true }
  else if r = Char.toNat 's' then
    let a1 := inputSetText unicodeLower [] { a with searchMode := true }
    some (refreshList { a1 with filtered := a1.entries })
  else if r = Char.toNat 'y' then copySelection env a
  else some a

/-- The navigation block of the input capture (lines 157-168). -/
def navigation (k : Key) (r : Rune) (a : appState) : appState :=
  if k = Key.up ∨ r = Char.toNat 'k' then
    if a.cursor > 0 then { a with cursor := a.cursor - 1 } else a
  else if k = Key.down ∨ r = Char.toNat 'j' then
    if a.cursor < (a.filtered.length : Int) - 1 then { a with cursor := a.cursor + 1 } else a
  else a

/-- The function given to `SetInputCapture` (lines 122-171), run on a key event with key
`k` and rune `r`. -/
def inputCapture (unicodeLower : GoString → GoString) (env : Env) (k : Key) (r : Rune)
    (a : appState) : Option appState :=
  let a1 := expireStatus env.now a
  if a1.searchMode then some a1
  else (commands unicodeLower env k r a1).map (navigation k r)

/-- What can happen to the state while the application runs: a key event reaches the
input capture, or the search field calls one of its two handlers. -/
inductive Event where
  | key (k : Key) (r : Rune) (env : Env)
  | changed (text : GoString)
  | done (k : Key)
deriving DecidableEq, Repr

/-- One event. -/
def step (unicodeLower : GoString → GoString) (a : appState) : Event → Option appState
  | Event.key k r env => inputCapture unicodeLower env k r a
  | Event.changed text => some (inputSetText unicodeLower text a)
  | Event.done k => some (doneFunc unicodeLower k a)

/-- A sequence of events, in order. -/
def runEvents (unicodeLower : GoString → GoString) (a : appState) :
    List Event → Option appState
  | [] => some a
  | e :: es => (step unicodeLower a e).bind (fun a1 => runEvents unicodeLower a1 es)

/-! ## Notions of the specification -/

/-- The cursor invariant of the data model: inside the view when the view is not empty,
`0` when it is. -/
def CursorInv (a : appState) : Prop :=
  (a.filtered ≠ [] → 0 ≤ a.cursor ∧ a.cursor < (a.filtered.length : Int)) ∧
  (a.filtered = [] → a.cursor = 0)

/-- The function `clamp(x, lo, hi)` of the specification. -/
def clamp (x lo hi : Int) : Int :=
  if x < lo then lo else if x > hi then hi else x

/-- The lower-case form of one byte in the words of the specification: an upper-case
letter of the alphabet becomes the lower-case letter at the same place of the alphabet,
any other byte stays. -/
def lowercaseByte (c : Nat) : Nat :=
  (((str "ABCDEFGHIJKLMNOPQRSTUVWXYZ").zip (str "abcdefghijklmnopqrstuvwxyz")).lookup c).getD c

/-- The function `lowercase` of the specification: on a string of ASCII bytes every
letter is lower-cased; on any other string it is the Unicode lower-casing
`unicodeLower`. -/
def lowercase (unicodeLower : GoString → GoString) (s : GoString) : GoString :=
  if ∀ c ∈ s, c < 128 then s.map lowercaseByte else unicodeLower s

/-! ## Concrete states used as examples -/

/-- The entry list of the example of the specification. -/
def exampleEntries : List GoString :=
  [str "HOME=/root", str "SHELL=/bin/bash", str "PATH=/usr/bin"]

/-- The Browsing-mode state after the search `sh` was confirmed with Enter. -/
def confirmedSearch : appState :=
  { entries := exampleEntries
    filtered := [str "SHELL=/bin/bash"]
    cursor := 0
    fileMode := false
    searchMode := false
    statusClearTime := 0
    inputText := str "sh"
    statusText := []
    stopped := false
    clipboard := [] }

/-- The state after `y` copied the first entry when `setStatus` read the time `1000`. -/
def copiedState : appState :=
  { entries := exampleEntries
    filtered := exampleEntries
    cursor := 0
    fileMode := false
    searchMode := false
    statusClearTime := 2000001000
    inputText := []
    statusText := str "[yellow]Copied to clipboard"
    stopped := false
    clipboard := [str "HOME=/root"] }

/-- The example list in Browsing mode with the cursor on its last entry. -/
def lastSelected : appState :=
  { newApp exampleEntries false with cursor := 2 }

/-- A Browsing-mode state with no entries at all. -/
def emptyState : appState := newApp [] false

/-! ## Facts about the string functions -/

theorem indexFrom_nonneg_iff (substr : GoString) (s : GoString) (i : Int) (hi : 0 ≤ i) :
    0 ≤ indexFrom substr s i ↔ substr <:+: s := by
  induction s generalizing i with
  | nil =>
    cases substr with
    | nil => simp [indexFrom, hi]
    | cons b bs => simp [indexFrom]
  | cons c rest ih =>
    unfold indexFrom
    by_cases hp : substr.isPrefixOf (c :: rest) = true
    · rw [if_pos hp]
      have hpre : substr <+: c :: rest := List.isPrefixOf_iff_prefix.mp hp
      exact ⟨fun _ => hpre.isInfix, fun _ => hi⟩
    · rw [if_neg hp, ih (i + 1) (by omega), List.infix_cons_iff]
      have hnp : ¬ substr <+: c :: rest := fun h => hp (List.isPrefixOf_iff_prefix.mpr h)
      exact ⟨Or.inr, fun h => h.resolve_left hnp⟩

theorem Contains_iff (s substr : GoString) : Contains s substr = true ↔ substr <:+: s := by
  unfold Contains Index
  rw [decide_eq_true_iff]
  exact indexFrom_nonneg_iff substr s 0 le_rfl

theorem ToLower_nil (u : GoString → GoString) : ToLower u [] = [] := by
  simp [ToLower]

theorem lowerByte_eq_lowercaseByte (c : Nat) : lowerByte c = lowercaseByte c := by
  by_cases h : c < 128
  · interval_cases c <;> rfl
  · have hup : isUpperByte c = false := by
      unfold isUpperByte
      simp only [Bool.and_eq_false_imp, decide_eq_true_eq, decide_eq_false_iff_not]
      omega
    have hne : ∀ n : Nat, n < 128 → (c == n) = false := by
      intro n hn
      simp only [beq_eq_false_iff_ne, ne_eq]
      omega
    unfold lowerByte lowercaseByte
    rw [hup]
    simp [str, List.lookup, hne]

theorem ToLower_eq_lowercase (u : GoString → GoString) (s : GoString) :
    ToLower u s = lowercase u s := by
  unfold ToLower lowercase
  by_cases hascii : ∀ c ∈ s, c < 128
  · have hall : s.all (fun c => decide (c < RuneSelf)) = true := by
      simpa [RuneSelf] using hascii
    rw [if_pos hall, if_pos hascii]
    have hmap : s.map lowerByte = s.map lowercaseByte :=
      List.map_congr_left (fun c _ => lowerByte_eq_lowercaseByte c)
    by_cases hup : s.any isUpperByte = true
    · simp only [hup, Bool.not_true, Bool.false_eq_true, if_false]
      exact hmap
    · simp only [hup, Bool.not_false, if_true]
      rw [← hmap]
      have hid : ∀ c ∈ s, lowerByte c = c := by
        intro c hc
        have hnot : isUpperByte c = false := by
          by_contra hcon
          exact hup (List.any_eq_true.mpr ⟨c, hc, by simpa using hcon⟩)
        simp [lowerByte, hnot]
      calc s = s.map id := (List.map_id s).symm
        _ = s.map lowerByte := List.map_congr_left (fun c hc => (hid c hc).symm)
  · have hall : ¬ s.all (fun c => decide (c < RuneSelf)) = true := by
      simpa [RuneSelf] using hascii
    rw [if_neg hall, if_neg hascii]

theorem filterLoop_eq (p : GoString → Bool) (es acc : List GoString) :
    es.foldl (fun out e => if p e then out ++ [e] else out) acc = acc ++ es.filter p := by
  induction es generalizing acc with
  | nil => simp
  | cons e es ih =>
    rw [List.foldl_cons, ih]
    by_cases h : p e = true
    · simp [h]
    · simp [h]

/-- For a non-empty query the loop of `filterEntries` keeps exactly the matching entries. -/
theorem filterEntries_eq_filter (u : GoString → GoString) (es : List GoString) (q : GoString)
    (hq : q ≠ []) :
    filterEntries u es q = es.filter (fun e => Contains (ToLower u e) (ToLower u q)) := by
  unfold filterEntries
  rw [if_neg hq]
  simpa using filterLoop_eq (fun e => Contains (ToLower u e) (ToLower u q)) es []

theorem filterEntries_nil_query (u : GoString → GoString) (es : List GoString) :
    filterEntries u es [] = es := by
  simp [filterEntries]

theorem filterEntries_sublist (u : GoString → GoString) (es : List GoString) (q : GoString) :
    (filterEntries u es q).Sublist es := by
  by_cases hq : q = []
  · subst hq
    rw [filterEntries_nil_query]
  · rw [filterEntries_eq_filter u es q hq]
    exact List.filter_sublist es

/-! ## Facts about the state functions -/

theorem refreshList_eq (a : appState) :
    refreshList a = { a with cursor := max 0 (min a.cursor ((a.filtered.length : Int) - 1)) } := by
  unfold refreshList
  by_cases h1 : a.cursor ≥ (a.filtered.length : Int)
  · by_cases h2 : (a.filtered.length : Int) - 1 < 0
    · simp only [if_pos h1, if_pos h2]
      congr 1
      omega
    · simp only [if_pos h1, if_neg h2]
      congr 1
      omega
  · by_cases h2 : a.cursor < 0
    · simp only [if_neg h1, if_pos h2]
      congr 1
      omega
    · simp only [if_neg h1, if_neg h2]
      cases a
      simp only [appState.mk.injEq, true_and, and_true]
      simp only at h1 h2
      omega

theorem refreshList_inv (a : appState) : CursorInv (refreshList a) := by
  rw [refreshList_eq]
  constructor
  · intro hne
    have hlen : 0 < a.filtered.length := List.length_pos.mpr hne
    simp only
    omega
  · intro hnil
    simp only at hnil
    simp only [hnil, List.length_nil]
    omega

theorem refreshList_of_inv (a : appState) (h : CursorInv a) : refreshList a = a := by
  rw [refreshList_eq]
  cases a with
  | mk entries filtered cursor fileMode searchMode statusClearTime inputText statusText stopped clipboard =>
    simp only [appState.mk.injEq, true_and, and_true]
    cases filtered with
    | nil =>
      have := h.2 rfl
      simp only at this
      simp [this]
    | cons x xs =>
      have := h.1 (by simp)
      simp only [List.length_cons] at this ⊢
      omega

theorem CursorInv_congr (a b : appState) (hf : b.filtered = a.filtered)
    (hc : b.cursor = a.cursor) (h : CursorInv a) : CursorInv b := by
  unfold CursorInv at *
  rw [hf, hc]
  exact h

theorem expireStatus_filtered (now : Time) (a : appState) :
    (expireStatus now a).filtered = a.filtered := by
  unfold expireStatus
  split <;> rfl

theorem expireStatus_cursor (now : Time) (a : appState) :
    (expireStatus now a).cursor = a.cursor := by
  unfold expireStatus
  split <;> rfl

theorem expireStatus_searchMode (now : Time) (a : appState) :
    (expireStatus now a).searchMode = a.searchMode := by
  unfold expireStatus
  split <;> rfl

theorem expireStatus_inv (now : Time) (a : appState) (h : CursorInv a) :
    CursorInv (expireStatus now a) :=
  CursorInv_congr a _ (expireStatus_filtered now a) (expireStatus_cursor now a) h

theorem inputSetText_inv (u : GoString → GoString) (text : GoString) (a : appState) :
    CursorInv (inputSetText u text a) :=
  refreshList_inv _

theorem inputSetText_nil (u : GoString → GoString) (a : appState) :
    inputSetText u [] a = refreshList { a with inputText := [], filtered := a.entries } := by
  simp [inputSetText, changedFunc, filterEntries_nil_query]

theorem doneFunc_esc (u : GoString → GoString) (a : appState) :
    doneFunc u Key.esc a =
      exitSearch (refreshList { a with inputText := [], filtered := a.entries }) := by
  show exitSearch { inputSetText u [] a with filtered := (inputSetText u [] a).entries } = _
  rw [inputSetText_nil, refreshList_eq]

theorem doneFunc_inv (u : GoString → GoString) (k : Key) (a : appState) (h : CursorInv a) :
    CursorInv (doneFunc u k a) := by
  cases k
  case enter => exact CursorInv_congr a _ rfl rfl h
  case esc =>
    rw [doneFunc_esc]
    exact CursorInv_congr _ _ rfl rfl (refreshList_inv _)
  all_goals exact h

theorem sliceIndex_of_inv (a : appState) (h : CursorInv a) (hne : a.filtered ≠ []) :
    ∃ entry, sliceIndex a.filtered a.cursor = some entry := by
  obtain ⟨h0, hlt⟩ := h.1 hne
  have hlt2 : a.cursor.toNat < a.filtered.length := by omega
  refine ⟨a.filtered.get ⟨a.cursor.toNat, hlt2⟩, ?_⟩
  unfold sliceIndex
  rw [if_pos h0]
  exact List.get?_eq_get hlt2

theorem copySelection_inv (env : Env) (a : appState) (h : CursorInv a) :
    ∃ b, copySelection env a = some b ∧ b.filtered = a.filtered ∧ b.cursor = a.cursor := by
  unfold copySelection
  by_cases hlen : a.filtered.length > 0
  · rw [if_pos hlen]
    obtain ⟨entry, he⟩ := sliceIndex_of_inv a h (List.length_pos.mp hlen)
    rw [he]
    cases env.writeOk
    · exact ⟨_, rfl, rfl, rfl⟩
    · exact ⟨_, rfl, rfl, rfl⟩
  · rw [if_neg hlen]
    exact ⟨a, rfl, rfl, rfl⟩

theorem commands_inv (u : GoString → GoString) (env : Env) (k : Key) (r : Rune)
    (a : appState) (h : CursorInv a) :
    ∃ b, commands u env k r a = some b ∧ CursorInv b := by
  unfold commands
  split
  · exact ⟨_, rfl, CursorInv_congr a _ rfl rfl h⟩
  · split
    · exact ⟨_, rfl, refreshList_inv _⟩
    · split
      · obtain ⟨b, hb, hf, hc⟩ := copySelection_inv env a h
        exact ⟨b, hb, CursorInv_congr a b hf hc h⟩
      · exact ⟨a, rfl, h⟩

theorem navigation_inv (k : Key) (r : Rune) (a : appState) (h : CursorInv a) :
    CursorInv (navigation k r a) := by
  unfold navigation
  have hlen : a.filtered = [] ∨ 0 < a.filtered.length := by
    cases hf : a.filtered with
    | nil => exact Or.inl rfl
    | cons x xs => exact Or.inr (by simp)
  split
  · split
    · rename_i hpos
      constructor
      · intro hne
        have := h.1 hne
        simp only
        omega
      · intro hnil
        have := h.2 hnil
        omega
    · exact h
  · split
    · split
      · rename_i hlt
        constructor
        · intro hne
          have := h.1 hne
          simp only
          omega
        · intro hnil
          simp only at hnil
          rw [hnil] at hlt
          have := h.2 hnil
          simp only [List.length_nil] at hlt
          omega
      · exact h
    · exact h

theorem inputCapture_inv (u : GoString → GoString) (env : Env) (k : Key) (r : Rune)
    (a : appState) (h : CursorInv a) :
    ∃ b, inputCapture u env k r a = some b ∧ CursorInv b := by
  unfold inputCapture
  have h1 := expireStatus_inv env.now a h
  by_cases hs : (expireStatus env.now a).searchMode = true
  · simp only [hs, if_true]
    exact ⟨_, rfl, h1⟩
  · obtain ⟨b, hb, hbi⟩ := commands_inv u env k r _ h1
    simp only [hs, hb]
    exact ⟨_, rfl, navigation_inv k r b hbi⟩

theorem step_inv (u : GoString → GoString) (a : appState) (e : Event) (h : CursorInv a) :
    ∃ b, step u a e = some b ∧ CursorInv b := by
  cases e with
  | key k r env => exact inputCapture_inv u env k r a h
  | changed text => exact ⟨_, rfl, inputSetText_inv u text a⟩
  | done k => exact ⟨_, rfl, doneFunc_inv u k a h⟩

theorem runEvents_inv (u : GoString → GoString) (evs : List Event) (a : appState)
    (h : CursorInv a) : ∃ b, runEvents u a evs = some b ∧ CursorInv b := by
  induction evs generalizing a with
  | nil => exact ⟨a, rfl, h⟩
  | cons e es ih =>
    obtain ⟨b, hb, hbi⟩ := step_inv u a e h
    obtain ⟨c, hc, hci⟩ := ih b hbi
    refine ⟨c, ?_, hci⟩
    simp [runEvents, hb, hc]

theorem newApp_inv (entries : List GoString) (fileMode : Bool) :
    CursorInv (newApp entries fileMode) :=
  refreshList_inv _

theorem commands_other (u : GoString → GoString) (env : Env) (k : Key) (r : Rune)
    (a : appState) (hq : r ≠ Char.toNat 'q') (hc : k ≠ Key.ctrlC) (hs : r ≠ Char.toNat 's')
    (hy : r ≠ Char.toNat 'y') : commands u env k r a = some a := by
  unfold commands
  rw [if_neg (by rintro (h | h); exact hq h; exact hc h), if_neg hs, if_neg hy]

theorem inputCapture_browsing (u : GoString → GoString) (env : Env) (k : Key) (r : Rune)
    (a : appState) (hb : a.searchMode = false) :
    inputCapture u env k r a =
      (commands u env k r (expireStatus env.now a)).map (navigation k r) := by
  unfold inputCapture
  simp [expireStatus_searchMode, hb]

theorem inputCapture_searching (u : GoString → GoString) (env : Env) (k : Key) (r : Rune)
    (a : appState) (hs : a.searchMode = true) :
    inputCapture u env k r a = some (expireStatus env.now a) := by
  unfold inputCapture
  simp [expireStatus_searchMode, hs]

theorem navigation_up (k : Key) (r : Rune) (a : appState)
    (h : k = Key.up ∨ r = Char.toNat 'k') (hinv : CursorInv a) :
    navigation k r a = { a with cursor :=
      (if a.filtered = [] then a.cursor
        else clamp (a.cursor + (-1)) 0 ((a.filtered.length : Int) - 1)) } := by
  unfold navigation
  rw [if_pos h]
  cases a with
  | mk entries filtered cursor fileMode searchMode statusClearTime inputText statusText stopped clipboard =>
    cases filtered with
    | nil =>
      have hc := hinv.2 rfl
      simp only at hc
      subst hc
      simp
    | cons x xs =>
      have hc := hinv.1 (by simp)
      simp only [List.length_cons] at hc
      simp only [List.length_cons, reduceCtorEq, if_false, clamp]
      split <;> split <;> (try split) <;> simp only [appState.mk.injEq, true_and, and_true] <;> omega

theorem navigation_down (k : Key) (r : Rune) (a : appState)
    (hup : ¬ (k = Key.up ∨ r = Char.toNat 'k'))
    (h : k = Key.down ∨ r = Char.toNat 'j') (hinv : CursorInv a) :
    navigation k r a = { a with cursor :=
      (if a.filtered = [] then a.cursor
        else clamp (a.cursor + 1) 0 ((a.filtered.length : Int) - 1)) } := by
  unfold navigation
  rw [if_neg hup, if_pos h]
  cases a with
  | mk entries filtered cursor fileMode searchMode statusClearTime inputText statusText stopped clipboard =>
    cases filtered with
    | nil =>
      have hc := hinv.2 rfl
      simp only at hc
      subst hc
      simp
    | cons x xs =>
      have hc := hinv.1 (by simp)
      simp only [List.length_cons] at hc
      simp only [List.length_cons, reduceCtorEq, if_false, clamp]
      split <;> split <;> (try split) <;> simp only [appState.mk.injEq, true_and, and_true] <;> omega

/-- The key events bound to `MoveCursor(delta)`: `k` or Up for `-1`, `j` or Down for `+1`. -/
theorem moveKey_cases (k : Key) (r : Rune) (delta : Int) (a : appState) (hinv : CursorInv a)
    (hkey : (delta = -1 ∧ ((k = Key.up ∧ r = 0) ∨ (k = Key.rune ∧ r = Char.toNat 'k'))) ∨
      (delta = 1 ∧ ((k = Key.down ∧ r = 0) ∨ (k = Key.rune ∧ r = Char.toNat 'j')))) :
    r ≠ Char.toNat 'q' ∧ k ≠ Key.ctrlC ∧ r ≠ Char.toNat 's' ∧ r ≠ Char.toNat 'y' ∧
    navigation k r a = { a with cursor :=
      (if a.filtered = [] then a.cursor
        else clamp (a.cursor + delta) 0 ((a.filtered.length : Int) - 1)) } := by
  rcases hkey with ⟨hd, ⟨hk, hr⟩ | ⟨hk, hr⟩⟩ | ⟨hd, ⟨hk, hr⟩ | ⟨hk, hr⟩⟩
  · subst hd hk hr
    exact ⟨by decide, by decide, by decide, by decide, navigation_up _ _ a (Or.inl rfl) hinv⟩
  · subst hd hk hr
    exact ⟨by decide, by decide, by decide, by decide, navigation_up _ _ a (Or.inr rfl) hinv⟩
  · subst hd hk hr
    exact ⟨by decide, by decide, by decide, by decide,
      navigation_down _ _ a (by decide) (Or.inl rfl) hinv⟩
  · subst hd hk hr
    exact ⟨by decide, by decide, by decide, by decide,
      navigation_down _ _ a (by decide) (Or.inr rfl) hinv⟩

theorem expireStatus_eq (now : Time) (a : appState) :
    expireStatus now a = { a with statusText := (expireStatus now a).statusText } := by
  unfold expireStatus
  split <;> rfl

theorem navigation_none (k : Key) (r : Rune) (a : appState)
    (hup : ¬ (k = Key.up ∨ r = Char.toNat 'k')) (hdown : ¬ (k = Key.down ∨ r = Char.toNat 'j')) :
    navigation k r a = a := by
  unfold navigation
  rw [if_neg hup, if_neg hdown]

theorem commands_y (u : GoString → GoString) (env : Env) (a : appState) :
    commands u env Key.rune (Char.toNat 'y') a = copySelection env a := by
  unfold commands
  rw [if_neg (by decide), if_neg (by decide), if_pos rfl]

theorem commands_s (u : GoString → GoString) (env : Env) (a : appState) :
    commands u env Key.rune (Char.toNat 's') a =
      some (refreshList { a with searchMode := true, inputText := [], filtered := a.entries }) := by
  unfold commands
  rw [if_neg (by decide), if_pos rfl]
  have hset := inputSetText_nil u { a with searchMode := true }
  have hkeep : ∀ c : appState, c.filtered = c.entries →
      { refreshList c with filtered := (refreshList c).entries } = refreshList c := by
    intro c hc
    rw [refreshList_eq]
    simp [hc]
  show some (refreshList { inputSetText u [] { a with searchMode := true } with
    filtered := (inputSetText u [] { a with searchMode := true }).entries }) = _
  rw [hset, hkeep _ rfl, refreshList_of_inv _ (refreshList_inv _)]

theorem inputCapture_y (u : GoString → GoString) (env : Env) (a : appState)
    (hb : a.searchMode = false) :
    inputCapture u env Key.rune (Char.toNat 'y') a = copySelection env (expireStatus env.now a) := by
  rw [inputCapture_browsing u env _ _ a hb, commands_y]
  cases copySelection env (expireStatus env.now a) with
  | none => rfl
  | some b =>
    simp only [Option.map_some']
    rw [navigation_none _ _ b (by decide) (by decide)]

theorem reachable_inv (u : GoString → GoString) (entries : List GoString) (fileMode : Bool)
    (evs : List Event) (a : appState)
    (h : runEvents u (newApp entries fileMode) evs = some a) : CursorInv a := by
  obtain ⟨b, hb, hbi⟩ := runEvents_inv u evs (newApp entries fileMode) (newApp_inv entries fileMode)
  rw [h] at hb
  cases hb
  exact hbi

theorem refreshList_length_le (a : appState) (h : a.filtered.length ≤ a.entries.length) :
    (refreshList a).filtered.length ≤ (refreshList a).entries.length := by
  rw [refreshList_eq]
  exact h

theorem copySelection_fields (env : Env) (a b : appState) (h : copySelection env a = some b) :
    b.filtered = a.filtered ∧ b.entries = a.entries := by
  unfold copySelection at h
  split at h
  · split at h
    · cases h
    · split at h <;> (cases h; exact ⟨rfl, rfl⟩)
  · cases h
    exact ⟨rfl, rfl⟩

theorem navigation_fields (k : Key) (r : Rune) (a : appState) :
    (navigation k r a).filtered = a.filtered ∧ (navigation k r a).entries = a.entries := by
  unfold navigation
  split
  · split <;> exact ⟨rfl, rfl⟩
  · split
    · split <;> exact ⟨rfl, rfl⟩
    · exact ⟨rfl, rfl⟩

theorem commands_length_le (u : GoString → GoString) (env : Env) (k : Key) (r : Rune)
    (a b : appState) (h : a.filtered.length ≤ a.entries.length)
    (hb : commands u env k r a = some b) : b.filtered.length ≤ b.entries.length := by
  unfold commands at hb
  split at hb
  · cases hb
    exact h
  · split at hb
    · cases hb
      exact refreshList_length_le _ le_rfl
    · split at hb
      · obtain ⟨hf, he⟩ := copySelection_fields env a b hb
        rw [hf, he]
        exact h
      · cases hb
        exact h

theorem step_length_le (u : GoString → GoString) (a b : appState) (e : Event)
    (h : a.filtered.length ≤ a.entries.length) (hb : step u a e = some b) :
    b.filtered.length ≤ b.entries.length := by
  cases e with
  | key k r env =>
    have h1 : (expireStatus env.now a).filtered.length ≤ (expireStatus env.now a).entries.length := by
      rw [expireStatus_eq]
      exact h
    simp only [step, inputCapture] at hb
    split at hb
    · cases hb
      exact h1
    · cases hc : commands u env k r (expireStatus env.now a) with
      | none => rw [hc] at hb; cases hb
      | some c =>
        rw [hc] at hb
        cases hb
        obtain ⟨hf, he⟩ := navigation_fields k r c
        rw [hf, he]
        exact commands_length_le u env k r _ c h1 hc
  | changed text =>
    cases hb
    exact refreshList_length_le _ (filterEntries_sublist u a.entries text).length_le
  | done k =>
    cases hb
    cases k
    case enter => exact h
    case esc =>
      rw [doneFunc_esc]
      exact refreshList_length_le _ le_rfl
    all_goals exact h

theorem runEvents_length_le (u : GoString → GoString) (evs : List Event) (a b : appState)
    (h : a.filtered.length ≤ a.entries.length) (hb : runEvents u a evs = some b) :
    b.filtered.length ≤ b.entries.length := by
  induction evs generalizing a with
  | nil =>
    cases hb
    exact h
  | cons e es ih =>
    cases hs : step u a e with
    | none => simp [runEvents, hs] at hb
    | some c =>
      simp only [runEvents, hs, Option.bind] at hb
      exact ih c (step_length_le u a c e h hs) hb

theorem reachable_length_le (u : GoString → GoString) (entries : List GoString)
    (fileMode : Bool) (evs : List Event) (a : appState)
    (h : runEvents u (newApp entries fileMode) evs = some a) :
    a.filtered.length ≤ a.entries.length :=
  runEvents_length_le u evs (newApp entries fileMode) a (refreshList_length_le _ le_rfl) h

theorem expireStatus_with (now : Time) (a : appState) (mode : Bool) (text : GoString)
    (view : List GoString) :
    expireStatus now { a with searchMode := mode, inputText := text, filtered := view }
      = { expireStatus now a with searchMode := mode, inputText := text, filtered := view } := by
  unfold expireStatus
  split <;> rfl

/-- From a Browsing-mode state with the cursor invariant and a filtered view no longer
than the entry list: `s`, the Esc key event and the done handler end in the state that
the two expiry checks leave, with the whole entry list as view and an empty search
text; the same holds without the Esc key event. -/
theorem enterSearch_cancel_general (u : GoString → GoString) (env env2 : Env) (r2 : Rune)
    (a : appState) (hb : a.searchMode = false) (hinv : CursorInv a)
    (hlen : a.filtered.length ≤ a.entries.length) :
    inputCapture u env Key.rune (Char.toNat 's') a =
      some { expireStatus env.now a with
        searchMode := true, inputText := [], filtered := a.entries } ∧
    runEvents u a [Event.key Key.rune (Char.toNat 's') env, Event.key Key.esc r2 env2,
        Event.done Key.esc]
      = some { expireStatus env2.now (expireStatus env.now a) with
          inputText := [], filtered := a.entries } ∧
    runEvents u a [Event.key Key.rune (Char.toNat 's') env, Event.done Key.esc]
      = some { expireStatus env.now a with inputText := [], filtered := a.entries } := by
  have hwide : ∀ c : appState, c.cursor = a.cursor → c.filtered = a.entries → CursorInv c := by
    intro c hc hf
    unfold CursorInv
    rw [hc, hf]
    constructor
    · intro hne
      have hpos : 0 < a.entries.length := List.length_pos.mpr hne
      by_cases hfe : a.filtered = []
      · have := hinv.2 hfe
        omega
      · have := hinv.1 hfe
        omega
    · intro hnil
      have hfe : a.filtered = [] := by
        apply List.eq_nil_of_length_eq_zero
        rw [hnil] at hlen
        simpa using hlen
      exact hinv.2 hfe
  have hent : (expireStatus env.now a).entries = a.entries := by rw [expireStatus_eq]
  have hkey : inputCapture u env Key.rune (Char.toNat 's') a =
      some { expireStatus env.now a with
        searchMode := true, inputText := [], filtered := a.entries } := by
    have hmid : CursorInv { expireStatus env.now a with
        searchMode := true, inputText := [], filtered := (expireStatus env.now a).entries } :=
      hwide _ (expireStatus_cursor _ _) hent
    rw [inputCapture_browsing u env _ _ a hb, commands_s, refreshList_of_inv _ hmid]
    simp only [Option.map_some']
    rw [navigation_none _ _ _ (by decide) (by decide)]
    simp only [hent]
  have hesc : ∀ c : appState, c.searchMode = false → c.cursor = a.cursor →
      c.entries = a.entries →
      doneFunc u Key.esc { c with searchMode := true, inputText := [], filtered := a.entries }
        = { c with inputText := [], filtered := a.entries } := by
    intro c hm hc he
    rw [doneFunc_esc]
    have hre := refreshList_of_inv
      { c with searchMode := true, inputText := [], filtered := c.entries }
      (hwide _ hc he)
    simp only [he] at hre ⊢
    rw [hre]
    simp only [exitSearch, ← hm]
  have hcur1 := expireStatus_cursor env.now a
  have hmode1 := (expireStatus_searchMode env.now a).trans hb
  refine ⟨hkey, ?_, ?_⟩
  · have hkey2 : inputCapture u env2 Key.esc r2
        { expireStatus env.now a with
          searchMode := true, inputText := [], filtered := a.entries }
        = some { expireStatus env2.now (expireStatus env.now a) with
          searchMode := true, inputText := [], filtered := a.entries } := by
      rw [inputCapture_searching u env2 _ _ _ rfl, expireStatus_with]
    have hdone := hesc (expireStatus env2.now (expireStatus env.now a))
      ((expireStatus_searchMode _ _).trans hmode1)
      ((expireStatus_cursor _ _).trans hcur1)
      (by rw [expireStatus_eq, hent])
    simp only [runEvents, step, hkey, hkey2, Option.bind, hdone]
  · have hdone := hesc (expireStatus env.now a) hmode1 hcur1 hent
    simp only [runEvents, step, hkey, Option.bind, hdone]

/-! ## The claims about `filterEntries` -/

/-- C1: an entry of the list is kept by `filterEntries` exactly when `lowercase` of the
entry has `lowercase` of the query as a contiguous substring, where `lowercase` is the
case folding of the specification (and equals what `strings.ToLower` computes).  On
the three entries `HOME=/root`, `SHELL=/bin/bash`, `PATH=/usr/bin` the query `sh` keeps
exactly `SHELL=/bin/bash`; the lower-case query `home` keeps the upper-case `HOME=/root`
and the upper-case query `BIN` keeps the two entries with a lower-case `bin`. -/
theorem filterEntries_mem_iff (u : GoString → GoString) (es : List GoString)
    (q e : GoString) (he : e ∈ es) :
    (e ∈ filterEntries u es q ↔ lowercase u q <:+: lowercase u e) ∧
    (e ∈ filterEntries u es q ↔ ToLower u q <:+: ToLower u e) ∧
    lowercase u (str "SHELL=/bin/bash") = str "shell=/bin/bash" ∧
    filterEntries u [str "HOME=/root", str "SHELL=/bin/bash", str "PATH=/usr/bin"] (str "sh")
      = [str "SHELL=/bin/bash"] ∧
    filterEntries u [str "HOME=/root", str "SHELL=/bin/bash", str "PATH=/usr/bin"] (str "home")
      = [str "HOME=/root"] ∧
    filterEntries u [str "HOME=/root", str "SHELL=/bin/bash", str "PATH=/usr/bin"] (str "BIN")
      = [str "SHELL=/bin/bash", str "PATH=/usr/bin"] := by
  have hiff : e ∈ filterEntries u es q ↔ ToLower u q <:+: ToLower u e := by
    by_cases hq : q = []
    · subst hq
      rw [filterEntries_nil_query, ToLower_nil]
      exact ⟨fun _ => List.nil_infix, fun _ => he⟩
    · rw [filterEntries_eq_filter u es q hq, List.mem_filter, Contains_iff]
      exact ⟨fun h => h.2, fun h => ⟨he, h⟩⟩
  refine ⟨?_, hiff, by rfl, by rfl, by rfl, by rfl⟩
  rw [← ToLower_eq_lowercase, ← ToLower_eq_lowercase]
  exact hiff

/-- Witness of C1: the upper-case entry `HOME=/root` of the example list is kept for
the lower-case query `home`, whose lower-cased form `home` lies in `home=/root`. -/
theorem filterEntries_mem_iff_witness :
    str "HOME=/root" ∈ exampleEntries ∧
    str "HOME=/root" ∈ filterEntries id exampleEntries (str "home") ∧
    lowercase id (str "home") <:+: lowercase id (str "HOME=/root") ∧
    lowercase id (str "HOME=/root") = str "home=/root" ∧
    ¬ (str "home" <:+: str "HOME=/root") :=
  have h := filterEntries_mem_iff id exampleEntries (str "home") (str "HOME=/root") (by decide)
  have hin : str "HOME=/root" ∈ filterEntries id exampleEntries (str "home") := by decide
  ⟨by decide, hin, h.1.mp hin, by decide, by decide⟩

/-- C2: the result of `filterEntries` is a subsequence of the entry list: it is obtained
by deleting entries, so it has only entries of the list, none more often than the list
has it, in the order of the list. -/
theorem filterEntries_subsequence (u : GoString → GoString) (es : List GoString)
    (q : GoString) :
    (filterEntries u es q).Sublist es ∧
    (∀ e, e ∈ filterEntries u es q → e ∈ es) ∧
    (∀ e, (filterEntries u es q).count e ≤ es.count e) := by
  have h := filterEntries_sublist u es q
  exact ⟨h, fun e he => h.subset he, fun e => h.count_le e⟩

/-- C9: filtering twice with the same query gives what filtering once gives. -/
theorem filterEntries_idempotent (u : GoString → GoString) (es : List GoString)
    (q : GoString) :
    filterEntries u (filterEntries u es q) q = filterEntries u es q := by
  by_cases hq : q = []
  · subst hq
    rw [filterEntries_nil_query, filterEntries_nil_query]
  · rw [filterEntries_eq_filter u _ q hq, filterEntries_eq_filter u es q hq, List.filter_filter]
    simp

/-- C10: the empty query returns the entry list itself, with every entry, in the same
order and of the same length. -/
theorem filterEntries_empty_query (u : GoString → GoString) (es : List GoString) :
    filterEntries u es (str "") = es ∧
    (filterEntries u es (str "")).length = es.length := by
  have h : filterEntries u es (str "") = es := filterEntries_nil_query u es
  exact ⟨h, by rw [h]⟩

/-! ## The claims about the state machine -/

/-- C3: from the state built by `newApp`, every sequence of events (key events of any
key, among them q, s, y, j, k, Up and Down, changes of the search text, Enter and Esc
in the search field) runs to a state, and in that state the cursor is inside the
filtered view when the view is not empty and is `0` when it is empty. -/
theorem cursor_invariant_reachable (u : GoString → GoString) (entries : List GoString)
    (fileMode : Bool) (evs : List Event) :
    ∃ a, runEvents u (newApp entries fileMode) evs = some a ∧
      (a.filtered ≠ [] → 0 ≤ a.cursor ∧ a.cursor < (a.filtered.length : Int)) ∧
      (a.filtered = [] → a.cursor = 0) :=
  runEvents_inv u evs (newApp entries fileMode) (newApp_inv entries fileMode)

/-- C4: in Browsing mode, in a state with the cursor invariant, the key events of
`MoveCursor(delta)` (`k` or Up for `-1`, `j` or Down for `+1`) set the cursor to
`clamp(cursor + delta, 0, len(filtered) - 1)` when the filtered view is not empty and
leave it when the view is empty; `+1` at the last index and `-1` at index `0` leave the
cursor where it is, and the filtered view, the mode and the entries are unchanged. -/
theorem moveCursor_clamp (u : GoString → GoString) (env : Env) (k : Key) (r : Rune)
    (delta : Int) (a : appState) (hb : a.searchMode = false) (hinv : CursorInv a)
    (hkey : (delta = -1 ∧ ((k = Key.up ∧ r = 0) ∨ (k = Key.rune ∧ r = Char.toNat 'k'))) ∨
      (delta = 1 ∧ ((k = Key.down ∧ r = 0) ∨ (k = Key.rune ∧ r = Char.toNat 'j')))) :
    ∃ b, inputCapture u env k r a = some b ∧
      (a.filtered ≠ [] →
        b.cursor = clamp (a.cursor + delta) 0 ((a.filtered.length : Int) - 1)) ∧
      (a.filtered = [] → b.cursor = a.cursor) ∧
      (delta = 1 → a.cursor = (a.filtered.length : Int) - 1 → b.cursor = a.cursor) ∧
      (delta = -1 → a.cursor = 0 → b.cursor = a.cursor) ∧
      b.filtered = a.filtered ∧ b.searchMode = a.searchMode ∧ b.entries = a.entries := by
  have hinv1 := expireStatus_inv env.now a hinv
  obtain ⟨hq, hc, hs, hy, hnav⟩ := moveKey_cases k r delta (expireStatus env.now a) hinv1 hkey
  have hfil := expireStatus_filtered env.now a
  have hcur := expireStatus_cursor env.now a
  have hmode := expireStatus_searchMode env.now a
  have hent : (expireStatus env.now a).entries = a.entries := by
    unfold expireStatus
    split <;> rfl
  refine ⟨navigation k r (expireStatus env.now a), ?_, ?_⟩
  · rw [inputCapture_browsing u env k r a hb, commands_other u env k r _ hq hc hs hy]
    rfl
  · rw [hnav]
    simp only [hfil, hcur, hmode, hent]
    refine ⟨fun hne => by rw [if_neg hne], fun he => by rw [if_pos he], ?_, ?_, trivial, trivial,
      trivial⟩
    · intro hd hlast
      by_cases he : a.filtered = []
      · rw [if_pos he]
      · rw [if_neg he]
        have := hinv.1 he
        unfold clamp
        split
        · omega
        · split <;> omega
    · intro hd hfirst
      by_cases he : a.filtered = []
      · rw [if_pos he]
      · rw [if_neg he]
        have := hinv.1 he
        unfold clamp
        split
        · omega
        · split <;> omega

/-- Counterexample to C6: from the start state of the example list the key `y` with a
successful write leaves the text `[yellow]Copied to clipboard` in the status line, and
with a failed write the text `[yellow]Error copying to clipboard`; neither is the
bare message of the claim. -/
theorem copySelection_status_counterexample :
    (newApp exampleEntries false).searchMode = false ∧
    (newApp exampleEntries false).filtered ≠ [] ∧
    (inputCapture id ⟨0, true, 1000⟩ Key.rune (Char.toNat 'y')
      (newApp exampleEntries false)).map appState.statusText
        = some (str "[yellow]Copied to clipboard") ∧
    str "[yellow]Copied to clipboard" ≠ str "Copied to clipboard" ∧
    (inputCapture id ⟨0, false, 1000⟩ Key.rune (Char.toNat 'y')
      (newApp exampleEntries false)).map appState.statusText
        = some (str "[yellow]Error copying to clipboard") ∧
    str "[yellow]Error copying to clipboard" ≠ str "Error copying to clipboard" := by
  decide

/-- C6, amended: in a Browsing-mode state the program can reach, with a filtered view
that is not empty, the key `y` hands exactly the entry `filtered[cursor]` to the
clipboard and returns normally whether or not the write succeeds: after a successful
write the status text is `[yellow]Copied to clipboard`, after a failed one it is
`[yellow]Error copying to clipboard` (the colour tag `[yellow]` followed by the
message), the expiry is the time read by `setStatus` plus 2000000000 nanoseconds, and
the filtered view, the cursor, the mode, the entries and the stop flag are unchanged. -/
theorem copySelection_status (u : GoString → GoString) (entries : List GoString)
    (fileMode : Bool) (evs : List Event) (a : appState) (env : Env)
    (hreach : runEvents u (newApp entries fileMode) evs = some a)
    (hb : a.searchMode = false) (hne : a.filtered ≠ []) :
    ∃ entry b, sliceIndex a.filtered a.cursor = some entry ∧
      inputCapture u env Key.rune (Char.toNat 'y') a = some b ∧
      b.clipboard = a.clipboard ++ [entry] ∧
      (env.writeOk = true → b.statusText = str "[yellow]Copied to clipboard" ∧
        b.statusText = str "[yellow]" ++ str "Copied to clipboard") ∧
      (env.writeOk = false → b.statusText = str "[yellow]Error copying to clipboard" ∧
        b.statusText = str "[yellow]" ++ str "Error copying to clipboard") ∧
      b.statusClearTime = env.statusNow + 2000000000 ∧
      b.filtered = a.filtered ∧ b.cursor = a.cursor ∧ b.searchMode = a.searchMode ∧
      b.entries = a.entries ∧ b.stopped = a.stopped := by
  have hinv := reachable_inv u entries fileMode evs a hreach
  obtain ⟨entry, he⟩ := sliceIndex_of_inv a hinv hne
  have hlen : a.filtered.length > 0 := List.length_pos.mpr hne
  have hcopy : copySelection env (expireStatus env.now a) =
      some (setStatus env.statusNow
        (if env.writeOk then str "Copied to clipboard" else str "Error copying to clipboard")
        { expireStatus env.now a with clipboard := a.clipboard ++ [entry] }) := by
    rw [expireStatus_eq]
    unfold copySelection
    simp only [hlen, if_true, he]
    cases env.writeOk <;> rfl
  refine ⟨entry, _, he, (inputCapture_y u env a hb).trans hcopy, ?_⟩
  rw [expireStatus_eq]
  refine ⟨rfl, ?_, ?_, rfl, rfl, rfl, rfl, rfl, rfl⟩
  · intro hok
    rw [hok]
    exact ⟨rfl, rfl⟩
  · intro hfail
    rw [hfail]
    exact ⟨rfl, rfl⟩

/-- C8: in a Browsing-mode state with an empty filtered view the `y` branch changes
nothing: the key event does only the expiry check that opens every key event, so
nothing is written to the clipboard and the expiry, the filtered view, the cursor and
the mode are unchanged, and so is the status text unless that check finds it expired;
when the status is not expired the whole state is unchanged. -/
theorem copySelection_empty_noop (u : GoString → GoString) (env : Env) (a : appState)
    (hb : a.searchMode = false) (hempty : a.filtered = []) :
    copySelection env a = some a ∧
    (commands u env Key.rune (Char.toNat 'y') a).map (navigation Key.rune (Char.toNat 'y'))
      = some a ∧
    inputCapture u env Key.rune (Char.toNat 'y') a = some (expireStatus env.now a) ∧
    (expireStatus env.now a).clipboard = a.clipboard ∧
    (expireStatus env.now a).statusClearTime = a.statusClearTime ∧
    (expireStatus env.now a).filtered = a.filtered ∧
    (expireStatus env.now a).cursor = a.cursor ∧
    (expireStatus env.now a).searchMode = a.searchMode ∧
    (¬ (a.statusClearTime ≠ 0 ∧ env.now > a.statusClearTime) →
      inputCapture u env Key.rune (Char.toNat 'y') a = some a) := by
  have hcopy : ∀ c : appState, c.filtered = [] → copySelection env c = some c := by
    intro c hc
    unfold copySelection
    simp [hc]
  have hcap : inputCapture u env Key.rune (Char.toNat 'y') a = some (expireStatus env.now a) := by
    rw [inputCapture_y u env a hb]
    exact hcopy _ ((expireStatus_filtered env.now a).trans hempty)
  refine ⟨hcopy a hempty, ?_, hcap, ?_, ?_, expireStatus_filtered _ _, expireStatus_cursor _ _,
    expireStatus_searchMode _ _, ?_⟩
  · rw [commands_y, hcopy a hempty]
    simp only [Option.map_some']
    rw [navigation_none _ _ a (by decide) (by decide)]
  · rw [expireStatus_eq]
  · rw [expireStatus_eq]
  · intro hnot
    rw [hcap]
    unfold expireStatus
    rw [if_neg hnot]

/-- Counterexample to C5: after the search `sh` is confirmed the Browsing-mode state
shows one entry; `s` followed by Esc then ends in Browsing mode with all three entries
in the filtered view, not with the view it started from. -/
theorem enterSearch_cancel_counterexample :
    runEvents id (newApp exampleEntries false)
        [Event.key Key.rune (Char.toNat 's') ⟨0, true, 0⟩, Event.changed (str "sh"),
          Event.done Key.enter] = some confirmedSearch ∧
    confirmedSearch.searchMode = false ∧
    confirmedSearch.filtered = [str "SHELL=/bin/bash"] ∧
    (runEvents id confirmedSearch
        [Event.key Key.rune (Char.toNat 's') ⟨0, true, 0⟩, Event.done Key.esc]).map
      (fun b => (b.searchMode, b.filtered)) = some (false, exampleEntries) ∧
    (runEvents id confirmedSearch
        [Event.key Key.rune (Char.toNat 's') ⟨0, true, 0⟩, Event.key Key.esc 0 ⟨0, true, 0⟩,
          Event.done Key.esc]).map
      (fun b => (b.searchMode, b.filtered)) = some (false, exampleEntries) ∧
    exampleEntries ≠ confirmedSearch.filtered := by
  decide

/-- Counterexample to C7: a status set by a copy expires at `2000001000`; the expiry
check run at exactly that time leaves the status text in place. -/
theorem expireStatus_counterexample :
    runEvents id (newApp exampleEntries false)
        [Event.key Key.rune (Char.toNat 'y') ⟨0, true, 1000⟩] = some copiedState ∧
    copiedState.statusClearTime ≠ 0 ∧
    (2000001000 : Int) ≥ copiedState.statusClearTime ∧
    (expireStatus 2000001000 copiedState).statusText = str "[yellow]Copied to clipboard" ∧
    inputCapture id ⟨2000001000, true, 0⟩ Key.other 0 copiedState = some copiedState := by
  decide

/-- C5, amended: in every Browsing-mode state the program can reach, `s` enters
Searching mode, and the Esc key with the done handler of the search field then gives
back the cursor and the mode and sets the filtered view to the whole entry list, so the
view is restored when it was the whole entry list before; the entries, the clipboard
and the stop flag are unchanged and the search text is empty.  The status is not
touched by the two operations: its expiry is unchanged, its text is what the expiry
checks of the two key events leave (unchanged when the status is not set or not
expired), and the two operations run without those checks keep text and expiry. -/
theorem enterSearch_cancel_restores (u : GoString → GoString) (entries : List GoString)
    (fileMode : Bool) (evs : List Event) (a : appState) (env env2 : Env) (r2 : Rune)
    (hreach : runEvents u (newApp entries fileMode) evs = some a)
    (hb : a.searchMode = false) :
    (inputCapture u env Key.rune (Char.toNat 's') a).map appState.searchMode = some true ∧
    (∃ b, runEvents u a [Event.key Key.rune (Char.toNat 's') env, Event.key Key.esc r2 env2,
          Event.done Key.esc] = some b ∧
      b = { expireStatus env2.now (expireStatus env.now a) with
        inputText := [], filtered := a.entries } ∧
      b.cursor = a.cursor ∧ b.searchMode = a.searchMode ∧ b.filtered = a.entries ∧
      (a.filtered = a.entries → b.filtered = a.filtered) ∧
      b.entries = a.entries ∧ b.clipboard = a.clipboard ∧ b.stopped = a.stopped ∧
      b.inputText = [] ∧
      b.statusClearTime = a.statusClearTime ∧
      b.statusText = (expireStatus env2.now (expireStatus env.now a)).statusText ∧
      (¬ (a.statusClearTime ≠ 0 ∧
          (env.now > a.statusClearTime ∨ env2.now > a.statusClearTime)) →
        b.statusText = a.statusText)) ∧
    runEvents u a [Event.key Key.rune (Char.toNat 's') env, Event.done Key.esc]
      = some { expireStatus env.now a with inputText := [], filtered := a.entries } ∧
    (commands u env Key.rune (Char.toNat 's') a).map
        (fun m => doneFunc u Key.esc (navigation Key.rune (Char.toNat 's') m))
      = some { a with inputText := [], filtered := a.entries } := by
  have hinv := reachable_inv u entries fileMode evs a hreach
  have hlen := reachable_length_le u entries fileMode evs a hreach
  obtain ⟨hkey, hrun3, hrun2⟩ := enterSearch_cancel_general u env env2 r2 a hb hinv hlen
  refine ⟨by rw [hkey]; rfl, ⟨_, hrun3, rfl, ?_⟩, hrun2, ?_⟩
  · refine ⟨?_, ?_, rfl, fun h => h.symm, ?_, ?_, ?_, rfl, ?_, rfl, ?_⟩
    · exact (expireStatus_cursor _ _).trans (expireStatus_cursor _ _)
    · exact (expireStatus_searchMode _ _).trans (expireStatus_searchMode _ _)
    · show (expireStatus env2.now (expireStatus env.now a)).entries = a.entries
      rw [expireStatus_eq, expireStatus_eq env.now a]
    · show (expireStatus env2.now (expireStatus env.now a)).clipboard = a.clipboard
      rw [expireStatus_eq, expireStatus_eq env.now a]
    · show (expireStatus env2.now (expireStatus env.now a)).stopped = a.stopped
      rw [expireStatus_eq, expireStatus_eq env.now a]
    · show (expireStatus env2.now (expireStatus env.now a)).statusClearTime = a.statusClearTime
      rw [expireStatus_eq, expireStatus_eq env.now a]
    · intro hnot
      show (expireStatus env2.now (expireStatus env.now a)).statusText = a.statusText
      have h1 : expireStatus env.now a = a := by
        unfold expireStatus
        rw [if_neg (fun h => hnot ⟨h.1, Or.inl h.2⟩)]
      rw [h1]
      unfold expireStatus
      rw [if_neg (fun h => hnot ⟨h.1, Or.inr h.2⟩)]
  · have hwide : CursorInv { a with searchMode := true, inputText := [], filtered := a.entries } := by
      have h0 := (enterSearch_cancel_general u ⟨a.statusClearTime, true, 0⟩
        ⟨a.statusClearTime, true, 0⟩ r2 a hb hinv hlen).1
      have hx : expireStatus a.statusClearTime a = a := by
        unfold expireStatus
        rw [if_neg (fun h => lt_irrefl _ h.2)]
      simp only [hx] at h0
      obtain ⟨c, hc, hci⟩ := inputCapture_inv u ⟨a.statusClearTime, true, 0⟩ Key.rune
        (Char.toNat 's') a hinv
      rw [h0] at hc
      cases hc
      exact hci
    rw [commands_s, refreshList_of_inv _ hwide]
    simp only [Option.map_some']
    rw [navigation_none _ _ _ (by decide) (by decide), doneFunc_esc]
    have hre := refreshList_of_inv
      { a with searchMode := true, inputText := [], filtered := a.entries } hwide
    simp only at hre ⊢
    rw [hre]
    simp only [exitSearch, ← hb]

/-- Witness of C5, amended: the Browsing-mode state reached by confirming the search
`sh`, whose view holds one of the three entries. -/
theorem enterSearch_cancel_restores_witness :
    runEvents id (newApp exampleEntries false)
        [Event.key Key.rune (Char.toNat 's') ⟨0, true, 0⟩, Event.changed (str "sh"),
          Event.done Key.enter] = some confirmedSearch ∧
    confirmedSearch.searchMode = false ∧
    ∃ b, runEvents id confirmedSearch
        [Event.key Key.rune (Char.toNat 's') ⟨5, true, 0⟩, Event.key Key.esc 0 ⟨9, true, 0⟩,
          Event.done Key.esc] = some b ∧
      b.cursor = confirmedSearch.cursor ∧ b.searchMode = confirmedSearch.searchMode ∧
      b.filtered = confirmedSearch.entries :=
  have hreach : runEvents id (newApp exampleEntries false)
      [Event.key Key.rune (Char.toNat 's') ⟨0, true, 0⟩, Event.changed (str "sh"),
        Event.done Key.enter] = some confirmedSearch := by decide
  have hmode : confirmedSearch.searchMode = false := by decide
  match (enterSearch_cancel_restores id exampleEntries false _ confirmedSearch ⟨5, true, 0⟩
    ⟨9, true, 0⟩ 0 hreach hmode).2.1 with
  | ⟨b, hrun, _, hc, hm, hf, _⟩ => ⟨hreach, hmode, b, hrun, hc, hm, hf⟩

/-- C7, amended: when a status is set (its expiry is not the zero time), the expiry
check clears the status text if the time read is strictly after the expiry and leaves
the state as it is if the time read is the expiry or earlier; the check opens every
key event: in Searching mode it is all the event does, in Browsing mode the commands
and the navigation run on the state it returns. -/
theorem expireStatus_after (u : GoString → GoString) (env : Env) (k : Key) (r : Rune)
    (a : appState) (hset : a.statusClearTime ≠ 0) :
    (env.now > a.statusClearTime → expireStatus env.now a = { a with statusText := [] }) ∧
    (env.now ≤ a.statusClearTime → expireStatus env.now a = a) ∧
    (a.searchMode = true → inputCapture u env k r a = some (expireStatus env.now a)) ∧
    (a.searchMode = false → inputCapture u env k r a =
      (commands u env k r (expireStatus env.now a)).map (navigation k r)) := by
  refine ⟨?_, ?_, inputCapture_searching u env k r a, inputCapture_browsing u env k r a⟩
  · intro hgt
    unfold expireStatus
    rw [if_pos ⟨hset, hgt⟩]
  · intro hle
    unfold expireStatus
    rw [if_neg (fun h => absurd h.2 (not_lt.mpr hle))]

/-- Witness of C7, amended: the copied state, one nanosecond after its expiry. -/
theorem expireStatus_after_witness :
    copiedState.statusClearTime ≠ 0 ∧
    (2000001001 : Int) > copiedState.statusClearTime ∧
    expireStatus 2000001001 copiedState = { copiedState with statusText := [] } :=
  ⟨by decide, by decide,
    (expireStatus_after id ⟨2000001001, true, 0⟩ Key.other 0 copiedState (by decide)).1
      (by decide)⟩

/-- Witness of C4: the example of the specification, three entries with the cursor on
the last one and the key `j`. -/
theorem moveCursor_clamp_witness :
    lastSelected.searchMode = false ∧ CursorInv lastSelected ∧
    ∃ b, inputCapture id ⟨0, true, 0⟩ Key.rune (Char.toNat 'j') lastSelected = some b ∧
      (lastSelected.filtered ≠ [] →
        b.cursor = clamp (lastSelected.cursor + 1) 0 ((lastSelected.filtered.length : Int) - 1)) ∧
      (lastSelected.filtered = [] → b.cursor = lastSelected.cursor) ∧
      ((1 : Int) = 1 → lastSelected.cursor = (lastSelected.filtered.length : Int) - 1 →
        b.cursor = lastSelected.cursor) ∧
      ((1 : Int) = -1 → lastSelected.cursor = 0 → b.cursor = lastSelected.cursor) ∧
      b.filtered = lastSelected.filtered ∧ b.searchMode = lastSelected.searchMode ∧
      b.entries = lastSelected.entries :=
  have hinv : CursorInv lastSelected := by
    unfold CursorInv
    decide
  ⟨by decide, hinv,
    moveCursor_clamp id ⟨0, true, 0⟩ Key.rune (Char.toNat 'j') 1 lastSelected (by decide) hinv
      (Or.inr ⟨rfl, Or.inr ⟨rfl, rfl⟩⟩)⟩

/-- Witness of C6, amended: the start state of the example list, reached by no event
at all, once with a successful and once with a failed clipboard write. -/
theorem copySelection_status_witness :
    (∃ entry b, sliceIndex (newApp exampleEntries false).filtered
        (newApp exampleEntries false).cursor = some entry ∧
      inputCapture id ⟨0, true, 1000⟩ Key.rune (Char.toNat 'y') (newApp exampleEntries false)
        = some b ∧
      b.clipboard = (newApp exampleEntries false).clipboard ++ [entry] ∧
      (true = true → b.statusText = str "[yellow]Copied to clipboard" ∧
        b.statusText = str "[yellow]" ++ str "Copied to clipboard") ∧
      (true = false → b.statusText = str "[yellow]Error copying to clipboard" ∧
        b.statusText = str "[yellow]" ++ str "Error copying to clipboard") ∧
      b.statusClearTime = 1000 + 2000000000 ∧
      b.filtered = (newApp exampleEntries false).filtered ∧
      b.cursor = (newApp exampleEntries false).cursor ∧
      b.searchMode = (newApp exampleEntries false).searchMode ∧
      b.entries = (newApp exampleEntries false).entries ∧
      b.stopped = (newApp exampleEntries false).stopped) ∧
    (∃ entry b, sliceIndex (newApp exampleEntries false).filtered
        (newApp exampleEntries false).cursor = some entry ∧
      inputCapture id ⟨0, false, 1000⟩ Key.rune (Char.toNat 'y') (newApp exampleEntries false)
        = some b ∧
      b.clipboard = (newApp exampleEntries false).clipboard ++ [entry] ∧
      (false = true → b.statusText = str "[yellow]Copied to clipboard" ∧
        b.statusText = str "[yellow]" ++ str "Copied to clipboard") ∧
      (false = false → b.statusText = str "[yellow]Error copying to clipboard" ∧
        b.statusText = str "[yellow]" ++ str "Error copying to clipboard") ∧
      b.statusClearTime = 1000 + 2000000000 ∧
      b.filtered = (newApp exampleEntries false).filtered ∧
      b.cursor = (newApp exampleEntries false).cursor ∧
      b.searchMode = (newApp exampleEntries false).searchMode ∧
      b.entries = (newApp exampleEntries false).entries ∧
      b.stopped = (newApp exampleEntries false).stopped) :=
  ⟨copySelection_status id exampleEntries false [] (newApp exampleEntries false)
      ⟨0, true, 1000⟩ rfl (by decide) (by decide),
    copySelection_status id exampleEntries false [] (newApp exampleEntries false)
      ⟨0, false, 1000⟩ rfl (by decide) (by decide)⟩

/-- Witness of C8: the state of an empty entry list. -/
theorem copySelection_empty_noop_witness :
    emptyState.searchMode = false ∧ emptyState.filtered = [] ∧
    inputCapture id ⟨0, true, 0⟩ Key.rune (Char.toNat 'y') emptyState = some emptyState :=
  ⟨by decide, by decide,
    (copySelection_empty_noop id ⟨0, true, 0⟩ emptyState (by decide) (by decide)).2.2.2.2.2.2.2.2
      (by decide)⟩

end Envui
